import Mathlib

/-!
Verification of the `sqsURLProducer` dispatch loop.

The Go source consists of one main file (the dispatch loop `processURLs`,
the retrying `sendBatch`, the polling goroutine in `main`) together with a
`models.URLs` gorm model and app/config bootstrap.  We embed the dispatch
loop, the batch sender and the data model shallowly:

* durations are natural numbers of seconds (`RetryBackoff = 2`,
  `PollingInterval = 10`);
* the queue is abstracted by an oracle `outcome : Nat → Bool` giving the
  success of each submission attempt (for `sendBatch`) resp. each chunk
  submission verdict (for `processURLs`);
* the store is a `List URLRecord`; the gorm calls
  `db.Limit(100).Where("processed = ?", false).Find` and
  `db.Model(&URLs{}).Where("url = ?", body).Update("processed", true)`
  become `fetchPending` and `markDelivered`;
* observable behaviour (queue calls, sleeps, mark updates) is recorded in
  explicit event traces.
-/

namespace SQSProducer

/-! ### Constants (part_000, lines 23–29) -/

def BatchSize : Nat := 10
def RetryAttempts : Nat := 3
def RetryBackoff : Nat := 2
def DatabaseLimit : Nat := 100
def PollingInterval : Nat := 10

/-! ### The batch sender (part_000, `sendBatch`, lines 128–144)

The Go loop is `for attempt := 0; attempt < RetryAttempts; attempt++`;
each iteration issues one `SendMessageBatch` call, returns `nil`
immediately on success, and otherwise sleeps
`RetryBackoff * (attempt+1)` — unconditionally, including after the final
failed attempt — before the next iteration.  We record the behaviour as a
pair: the returned verdict (`true` = `nil` error) and the ordered trace of
observable events. -/

inductive SendEvent where
  | call (attempt : Nat)
  | sleep (dur : Nat)
  deriving DecidableEq, Repr

def sendBatchFrom (outcome : Nat → Bool) : Nat → Nat → Bool × List SendEvent
  | _, 0 => (false, [])
  | attempt, fuel+1 =>
    if outcome attempt then
      (true, [SendEvent.call attempt])
    else
      let r := sendBatchFrom outcome (attempt+1) fuel
      (r.1, SendEvent.call attempt :: SendEvent.sleep (RetryBackoff * (attempt+1)) :: r.2)

def sendBatch (outcome : Nat → Bool) : Bool × List SendEvent :=
  sendBatchFrom outcome 0 RetryAttempts

def isCall : SendEvent → Bool
  | SendEvent.call _ => true
  | SendEvent.sleep _ => false

def numCalls (tr : List SendEvent) : Nat :=
  (tr.filter isCall).length

def sleepDurs (tr : List SendEvent) : List Nat :=
  tr.filterMap fun e =>
    match e with
    | SendEvent.sleep d => some d
    | SendEvent.call _ => none

/-- The spec's phrase "only sleeps between attempts, never after the last":
every sleep event in the trace is followed by a later submission call. -/
def sleepsOnlyBetweenAttempts (tr : List SendEvent) : Prop :=
  ∀ pre d post, tr = pre ++ SendEvent.sleep d :: post → ∃ a, SendEvent.call a ∈ post

/-- Cancellation model for `sendBatch`: the `ctx` is threaded only into the
`SendMessageBatch` call, so once the context is cancelled (from attempt
`cancelFrom` onward) every remaining submission attempt fails; the
`time.Sleep` backoffs do not consult the context at all. -/
def effectiveOutcome (queueOk : Nat → Bool) (cancelFrom : Nat) (a : Nat) : Bool :=
  queueOk a && !(decide (cancelFrom ≤ a))

def sendBatchCancelled (queueOk : Nat → Bool) (cancelFrom : Nat) : Bool × List SendEvent :=
  sendBatch (effectiveOutcome queueOk cancelFrom)

/-! ### The data model (part_001, `models.URLs`)

The gorm model declares exactly two columns, `id` and `url`; the
`processed` flag used by `processURLs` appears only as a raw column name
inside the query strings, and no index is declared by any gorm tag. -/

/-- The columns declared by gorm tags on `models.URLs`
(`column:id; primary_key; autoIncrement` and `column:url; not null`). -/
def URLsColumns : List String := ["id", "url"]

/-- Indexes declared by gorm tags on `models.URLs`: none. -/
def URLsIndexes : List String := []

/-- Column named in `db.Limit(100).Where("processed = ?", false)`. -/
def fetchWhereColumn : String := "processed"

/-- Column named in `.Update("processed", true)`. -/
def markUpdateColumn : String := "processed"

/-- A stored row as `processURLs` sees it: the two declared columns plus
the raw `processed` column its queries read and write. -/
structure URLRecord where
  id : Nat
  url : String
  processed : Bool
  deriving DecidableEq, Repr

/-- `db.Limit(DatabaseLimit).Where("processed = ?", false).Find(&urls)`. -/
def fetchPending (db : List URLRecord) : List URLRecord :=
  (db.filter fun r => !r.processed).take DatabaseLimit

/-- `db.Model(&models.URLs{}).Where("url = ?", body).Update("processed", true)`:
every row whose `url` equals `body` is updated. -/
def markDelivered (db : List URLRecord) (body : String) : List URLRecord :=
  db.map fun r => if r.url = body then { r with processed := true } else r

/-- One `types.SendMessageBatchRequestEntry` as built in `processURLs`. -/
structure Entry where
  id : String
  messageBody : String
  messageGroupId : String
  deriving DecidableEq, Repr

/-- The entry appended for one record: `msg-<count>` / body / `group-<count>`
(the Go code increments `*messageCount` first, then formats it). -/
def mkEntry (count : Nat) (u : String) : Entry :=
  { id := "msg-" ++ toString count
    messageBody := u
    messageGroupId := "group-" ++ toString count }

/-- The entries generated for a fetched page, starting after a prior
message count of `count`. -/
def mkEntries (count : Nat) : List URLRecord → List Entry
  | [] => []
  | u :: rest => mkEntry (count + 1) u.url :: mkEntries (count + 1) rest

/-- Observable events of one tick: a chunk submission (`sendBatch`
invocation) with its verdict, or one mark-delivered update keyed on a
message body. -/
inductive Ev where
  | send (entries : List Entry) (ok : Bool)
  | mark (body : String)
  deriving DecidableEq, Repr

/-- The batching loop of `processURLs` (part_000, lines 104–125): iterate
over the fetched page, append an entry per record, and when the
accumulated batch reaches `BatchSize` or the record is the last one,
invoke the batch sender; on success update `processed` for every entry's
body, on failure only log; then reset the batch.  `outcome i` is the
batch sender's verdict for the `i`-th chunk of the tick. -/
def dispatchGo (outcome : Nat → Bool) (db : List URLRecord) (urls : List URLRecord)
    (batch : List Entry) (count sendIdx : Nat) : List URLRecord × Nat × List Ev :=
  match urls with
  | [] => (db, count, [])
  | u :: rest =>
    let batch' := batch ++ [mkEntry (count + 1) u.url]
    if batch'.length = BatchSize ∨ rest = [] then
      if outcome sendIdx then
        let db' := batch'.foldl (fun d e => markDelivered d e.messageBody) db
        let r := dispatchGo outcome db' rest [] (count + 1) (sendIdx + 1)
        (r.1, r.2.1,
          Ev.send batch' true :: (batch'.map (fun e => Ev.mark e.messageBody) ++ r.2.2))
      else
        let r := dispatchGo outcome db rest [] (count + 1) (sendIdx + 1)
        (r.1, r.2.1, Ev.send batch' false :: r.2.2)
    else
      dispatchGo outcome db rest batch' (count + 1) sendIdx

/-- One invocation of `processURLs` (part_000, lines 88–126).
`storeFails` models `result.Error != nil` on the fetch; the function
returns the updated store, the updated `messageCount`, and the tick's
event trace. -/
def processURLs (storeFails : Bool) (db : List URLRecord) (outcome : Nat → Bool)
    (count : Nat) : List URLRecord × Nat × List Ev :=
  if storeFails then (db, count, [])
  else
    let urls := fetchPending db
    if urls = [] then (db, count, [])
    else dispatchGo outcome db urls [] count 0

/-- The chunks submitted during a tick, in submission order. -/
def sendChunks (tr : List Ev) : List (List Entry) :=
  tr.filterMap fun e =>
    match e with
    | Ev.send c _ => some c
    | Ev.mark _ => none

/-- The chunks whose submission the batch sender confirmed successful. -/
def okChunks (tr : List Ev) : List (List Entry) :=
  tr.filterMap fun e =>
    match e with
    | Ev.send c true => some c
    | _ => none

/-- The chunk/verdict pairs of a tick, in submission order. -/
def sendVerdicts (tr : List Ev) : List (List Entry × Bool) :=
  tr.filterMap fun e =>
    match e with
    | Ev.send c ok => some (c, ok)
    | Ev.mark _ => none

/-- The bodies passed to mark-delivered updates, in order. -/
def markedBodies (tr : List Ev) : List String :=
  tr.filterMap fun e =>
    match e with
    | Ev.mark b => some b
    | Ev.send _ _ => none

/-- Pair each chunk with the batch sender verdict of its submission,
starting at chunk index `i`. -/
def pairWithOutcome (outcome : Nat → Bool) (i : Nat) :
    List (List Entry) → List (List Entry × Bool)
  | [] => []
  | c :: cs => (c, outcome i) :: pairWithOutcome outcome (i + 1) cs

/-- "Marking never precedes acceptance", as a scan over the trace: every
mark event's body belongs to a chunk whose successful submission occurred
earlier in the trace (`acc` accumulates the already-accepted chunks). -/
def marksOk : List Ev → List (List Entry) → Bool
  | [], _ => true
  | Ev.send c true :: tr, acc => marksOk tr (c :: acc)
  | Ev.send _ false :: tr, acc => marksOk tr acc
  | Ev.mark b :: tr, acc =>
      acc.any (fun c => c.any fun e => e.messageBody = b) && marksOk tr acc

/-- The chunk decomposition performed by the batching loop: entries are
accumulated into `batch` and a chunk is emitted when it reaches
`BatchSize` or the page is exhausted. -/
def chunksGo (count : Nat) (batch : List Entry) : List URLRecord → List (List Entry)
  | [] => []
  | u :: rest =>
    let batch' := batch ++ [mkEntry (count + 1) u.url]
    if batch'.length = BatchSize ∨ rest = [] then
      batch' :: chunksGo (count + 1) [] rest
    else
      chunksGo (count + 1) batch' rest

/-- The per-chunk phase of the tick: submit each chunk in order (verdict
`outcome i` for the `i`-th), and on success mark every entry's body. -/
def runChunks (outcome : Nat → Bool) (i : Nat) (db : List URLRecord) :
    List (List Entry) → List URLRecord × List Ev
  | [] => (db, [])
  | c :: cs =>
    if outcome i then
      let db' := c.foldl (fun d e => markDelivered d e.messageBody) db
      let r := runChunks outcome (i + 1) db' cs
      (r.1, Ev.send c true :: (c.map (fun e => Ev.mark e.messageBody) ++ r.2))
    else
      let r := runChunks outcome (i + 1) db cs
      (r.1, Ev.send c false :: r.2)

/-! ### Concrete stores used as test inputs -/

/-- A fresh record with a payload derived from its id. -/
def mkRecord (i : Nat) : URLRecord :=
  { id := i, url := "u" ++ toString i, processed := false }

/-- 25 pending records with pairwise distinct payloads. -/
def db25 : List URLRecord :=
  (List.range 25).map fun i => mkRecord (i + 1)

/-- 11 pending records in which record 11 shares the payload `"u1"` with
record 1: record 11 lands alone in the second chunk while its payload
also appears in the first chunk. -/
def db11 : List URLRecord :=
  ((List.range 10).map fun i => mkRecord (i + 1)) ++
    [{ id := 11, url := "u1", processed := false }]

/-! ### The producer goroutine after cancellation (`main`, lines 59–71)

The goroutine is `for { select { case <-ctx.Done(): return; default:
processURLs(...) }; time.Sleep(PollingInterval) }`.  Neither
`time.Sleep` nor the gorm calls consult `ctx`; only the
`SendMessageBatch` calls inside `sendBatch` do.  We model the events the
goroutine still performs once cancellation has been signalled, as a
function of the point it has reached. -/

inductive LoopEv where
  | storeCall
  | queueCall
  | sleepEv (dur : Nat)
  | exitEv
  deriving DecidableEq, Repr

def sendEvToLoopEv : SendEvent → LoopEv
  | SendEvent.call _ => LoopEv.queueCall
  | SendEvent.sleep d => LoopEv.sleepEv d

/-- The events of one chunk submission under a cancelled context: every
attempt fails with the context error and every backoff sleep runs in
full (this is `sendBatch` with cancellation effective from attempt 0). -/
def cancelledChunkEvs : List LoopEv :=
  (sendBatchCancelled (fun _ => true) 0).2.map sendEvToLoopEv

/-- Where the goroutine is when the cancellation signal arrives. -/
inductive LoopPoint where
  | atSelect
  | beforeTick (chunks : Nat)
  | midTick (chunksLeft : Nat)
  | inPollSleep (remaining : Nat)
  deriving DecidableEq, Repr

/-- Events the goroutine still performs after cancellation is signalled:
at the `select` it returns at once; before a tick it still fetches,
submits every chunk (all failing, with full backoff sleeps, no marks) and
sleeps the full polling interval; mid-tick likewise for the remaining
chunks; inside the polling sleep it finishes the remaining sleep.  In
every case the following `select` observes `ctx.Done()` and returns. -/
def afterCancel : LoopPoint → List LoopEv
  | LoopPoint.atSelect => [LoopEv.exitEv]
  | LoopPoint.beforeTick k =>
      LoopEv.storeCall ::
        ((List.replicate k cancelledChunkEvs).flatten ++
          [LoopEv.sleepEv PollingInterval, LoopEv.exitEv])
  | LoopPoint.midTick k =>
      (List.replicate k cancelledChunkEvs).flatten ++
        [LoopEv.sleepEv PollingInterval, LoopEv.exitEv]
  | LoopPoint.inPollSleep r => [LoopEv.sleepEv r, LoopEv.exitEv]

/-- Total seconds slept in a sequence of loop events. -/
def loopSleepTotal (evs : List LoopEv) : Nat :=
  (evs.filterMap fun e =>
    match e with
    | LoopEv.sleepEv d => some d
    | _ => none).sum

/-- Number of store or queue calls in a sequence of loop events. -/
def loopCallCount (evs : List LoopEv) : Nat :=
  (evs.filter fun e =>
    match e with
    | LoopEv.storeCall => true
    | LoopEv.queueCall => true
    | _ => false).length

end SQSProducer

namespace SQSProducer

/-! ### Decomposition of the batching loop -/

/-- The batching loop factors into the chunk decomposition (`chunksGo`)
followed by the per-chunk submit/mark phase (`runChunks`); the message
count advances by one per fetched record. -/
theorem dispatchGo_eq (outcome : Nat → Bool) (urls : List URLRecord) :
    ∀ db batch count sendIdx,
    dispatchGo outcome db urls batch count sendIdx =
      ((runChunks outcome sendIdx db (chunksGo count batch urls)).1,
       count + urls.length,
       (runChunks outcome sendIdx db (chunksGo count batch urls)).2) := by
  induction urls with
  | nil =>
    intro db batch count sendIdx
    simp [dispatchGo, chunksGo, runChunks]
  | cons u rest ih =>
    intro db batch count sendIdx
    have hlen : count + (rest.length + 1) = count + 1 + rest.length := by omega
    simp only [dispatchGo, chunksGo, List.length_cons]
    by_cases hc : (batch ++ [mkEntry (count + 1) u.url]).length = BatchSize ∨ rest = []
    · rw [if_pos hc, if_pos hc]
      by_cases hok : outcome sendIdx = true
      · simp [runChunks, ih, hok, hlen]
      · simp [runChunks, ih, hok, hlen]
    · rw [if_neg hc, if_neg hc, ih]
      simp [hlen]

/-! ### Trace extractor equations -/

theorem sendChunks_cons_send (c : List Entry) (ok : Bool) (tr : List Ev) :
    sendChunks (Ev.send c ok :: tr) = c :: sendChunks tr := rfl

theorem sendChunks_append (a b : List Ev) :
    sendChunks (a ++ b) = sendChunks a ++ sendChunks b := by
  simp [sendChunks, List.filterMap_append]

theorem okChunks_cons_send (c : List Entry) (ok : Bool) (tr : List Ev) :
    okChunks (Ev.send c ok :: tr) =
      if ok then c :: okChunks tr else okChunks tr := by
  cases ok <;> rfl

theorem okChunks_append (a b : List Ev) :
    okChunks (a ++ b) = okChunks a ++ okChunks b := by
  simp [okChunks, List.filterMap_append]

theorem sendVerdicts_cons_send (c : List Entry) (ok : Bool) (tr : List Ev) :
    sendVerdicts (Ev.send c ok :: tr) = (c, ok) :: sendVerdicts tr := rfl

theorem sendVerdicts_append (a b : List Ev) :
    sendVerdicts (a ++ b) = sendVerdicts a ++ sendVerdicts b := by
  simp [sendVerdicts, List.filterMap_append]

theorem markedBodies_cons_send (c : List Entry) (ok : Bool) (tr : List Ev) :
    markedBodies (Ev.send c ok :: tr) = markedBodies tr := rfl

theorem markedBodies_append (a b : List Ev) :
    markedBodies (a ++ b) = markedBodies a ++ markedBodies b := by
  simp [markedBodies, List.filterMap_append]

theorem sendChunks_marks (l : List Entry) :
    sendChunks (l.map fun e => Ev.mark e.messageBody) = [] := by
  induction l with
  | nil => rfl
  | cons e l ih => exact ih

theorem okChunks_marks (l : List Entry) :
    okChunks (l.map fun e => Ev.mark e.messageBody) = [] := by
  induction l with
  | nil => rfl
  | cons e l ih => exact ih

theorem sendVerdicts_marks (l : List Entry) :
    sendVerdicts (l.map fun e => Ev.mark e.messageBody) = [] := by
  induction l with
  | nil => rfl
  | cons e l ih => exact ih

theorem markedBodies_marks (l : List Entry) :
    markedBodies (l.map fun e => Ev.mark e.messageBody) =
      l.map fun e => e.messageBody := by
  induction l with
  | nil => rfl
  | cons e l ih =>
    simp only [List.map_cons]
    rw [show markedBodies (Ev.mark e.messageBody :: l.map fun e => Ev.mark e.messageBody)
          = e.messageBody :: markedBodies (l.map fun e => Ev.mark e.messageBody) from rfl, ih]

/-! ### Properties of the per-chunk phase -/

/-- The chunks submitted by `runChunks` are exactly its input chunks. -/
theorem runChunks_sendChunks (outcome : Nat → Bool) (cs : List (List Entry)) :
    ∀ i db, sendChunks (runChunks outcome i db cs).2 = cs := by
  induction cs with
  | nil => intro i db; rfl
  | cons c rest ih =>
    intro i db
    by_cases hok : outcome i = true <;>
      simp [runChunks, hok, sendChunks_cons_send, sendChunks_append, sendChunks_marks, ih]

/-- Each chunk is submitted with its own verdict `outcome i`, in order,
independently of the other chunks' verdicts. -/
theorem runChunks_sendVerdicts (outcome : Nat → Bool) (cs : List (List Entry)) :
    ∀ i db, sendVerdicts (runChunks outcome i db cs).2 = pairWithOutcome outcome i cs := by
  induction cs with
  | nil => intro i db; rfl
  | cons c rest ih =>
    intro i db
    by_cases hok : outcome i = true <;>
      simp [runChunks, hok, sendVerdicts_cons_send, sendVerdicts_append,
        sendVerdicts_marks, ih, pairWithOutcome]

/-- The bodies marked delivered are exactly those of the chunks whose
submission succeeded. -/
theorem runChunks_markedBodies (outcome : Nat → Bool) (cs : List (List Entry)) :
    ∀ i db,
    markedBodies (runChunks outcome i db cs).2 =
      (okChunks (runChunks outcome i db cs).2).flatMap
        (fun c => c.map fun e => e.messageBody) := by
  induction cs with
  | nil => intro i db; rfl
  | cons c rest ih =>
    intro i db
    by_cases hok : outcome i = true <;>
      simp [runChunks, hok, markedBodies_cons_send, markedBodies_append,
        okChunks_cons_send, okChunks_append, markedBodies_marks, okChunks_marks, ih]

/-- The final store is the initial store with every marked body applied,
in order. -/
theorem runChunks_fst (outcome : Nat → Bool) (cs : List (List Entry)) :
    ∀ i db,
    (runChunks outcome i db cs).1 =
      (markedBodies (runChunks outcome i db cs).2).foldl markDelivered db := by
  induction cs with
  | nil => intro i db; rfl
  | cons c rest ih =>
    intro i db
    by_cases hok : outcome i = true <;>
      simp [runChunks, hok, markedBodies_cons_send, markedBodies_append,
        markedBodies_marks, ih, List.foldl_append, List.foldl_map]

/-- Processing a block of mark events whose bodies all come from a chunk
already in `acc` does not disturb the `marksOk` scan. -/
theorem marksOk_marks_append (tr : List Ev) (acc : List (List Entry)) (c : List Entry)
    (hc : c ∈ acc) :
    ∀ l : List Entry, (∀ e ∈ l, e ∈ c) →
    marksOk (l.map (fun e => Ev.mark e.messageBody) ++ tr) acc = marksOk tr acc := by
  intro l
  induction l with
  | nil => intro _; rfl
  | cons e l ih =>
    intro hl
    have he : e ∈ c := hl e (by simp)
    have hany : acc.any (fun ch => ch.any fun e' => e'.messageBody = e.messageBody) = true := by
      rw [List.any_eq_true]
      refine ⟨c, hc, ?_⟩
      rw [List.any_eq_true]
      exact ⟨e, he, by simp⟩
    simp only [List.map_cons, List.cons_append, marksOk, hany, Bool.true_and]
    exact ih fun e' he' => hl e' (by simp [he'])

/-- Every mark event in a `runChunks` trace is preceded by the successful
submission of a chunk containing its body. -/
theorem runChunks_marksOk (outcome : Nat → Bool) (cs : List (List Entry)) :
    ∀ i db acc, marksOk (runChunks outcome i db cs).2 acc = true := by
  induction cs with
  | nil => intro i db acc; rfl
  | cons c rest ih =>
    intro i db acc
    by_cases hok : outcome i = true
    · simp only [runChunks, hok, if_true]
      show marksOk (Ev.send c true :: _) acc = true
      rw [show ∀ tr, marksOk (Ev.send c true :: tr) acc = marksOk tr (c :: acc)
            from fun tr => rfl]
      rw [marksOk_marks_append _ (c :: acc) c (by simp) c (fun e he => he)]
      exact ih _ _ _
    · simp only [runChunks, hok, if_false, Bool.false_eq_true]
      show marksOk (Ev.send c false :: _) acc = true
      rw [show ∀ tr, marksOk (Ev.send c false :: tr) acc = marksOk tr acc
            from fun tr => rfl]
      exact ih _ _ _

/-! ### Properties of the chunk decomposition -/

/-- Concatenating the chunks recovers the pending batch followed by the
remaining entries, in fetch order. -/
theorem chunksGo_flatten (urls : List URLRecord) :
    ∀ count batch, (urls = [] → batch = []) →
    (chunksGo count batch urls).flatten = batch ++ mkEntries count urls := by
  induction urls with
  | nil =>
    intro count batch hne
    simp [chunksGo, mkEntries, hne rfl]
  | cons u rest ih =>
    intro count batch _
    simp only [chunksGo]
    by_cases hc : (batch ++ [mkEntry (count + 1) u.url]).length = BatchSize ∨ rest = []
    · rcases eq_or_ne rest [] with hrest | hrest
      · subst hrest
        simp [hc, chunksGo, mkEntries]
      · rw [if_pos hc]
        simp only [List.flatten_cons, ih (count + 1) [] (fun h => absurd h hrest),
          List.nil_append, mkEntries]
        simp
    · rw [if_neg hc]
      have hrest : rest ≠ [] := fun h => hc (Or.inr h)
      rw [ih (count + 1) _ (fun h => absurd h hrest)]
      simp [mkEntries]

/-- Every chunk holds at most `BatchSize` entries, and every chunk except
possibly the last holds exactly `BatchSize`. -/
theorem chunksGo_sizes (urls : List URLRecord) :
    ∀ count batch, batch.length < BatchSize →
    (∀ c ∈ chunksGo count batch urls, c.length ≤ BatchSize) ∧
    (∀ c ∈ (chunksGo count batch urls).dropLast, c.length = BatchSize) := by
  induction urls with
  | nil =>
    intro count batch _
    simp [chunksGo]
  | cons u rest ih =>
    intro count batch hb
    simp only [chunksGo]
    by_cases hc : (batch ++ [mkEntry (count + 1) u.url]).length = BatchSize ∨ rest = []
    · rw [if_pos hc]
      have hlen : (batch ++ [mkEntry (count + 1) u.url]).length ≤ BatchSize := by
        simp only [List.length_append, List.length_singleton]
        omega
      have hrec := ih (count + 1) [] (by simp [BatchSize])
      constructor
      · intro c hcmem
        rcases List.mem_cons.1 hcmem with h | h
        · exact h ▸ hlen
        · exact hrec.1 c h
      · intro c hcmem
        rcases hd : chunksGo (count + 1) [] rest with _ | ⟨c', cs'⟩
        · rw [hd] at hcmem
          simp at hcmem
        · rw [hd] at hcmem
          rw [List.dropLast_cons₂] at hcmem
          rcases List.mem_cons.1 hcmem with h | h
          · subst h
            rcases hc with hc | hc
            · exact hc
            · subst hc
              simp [chunksGo] at hd
          · exact hrec.2 c (by rw [hd]; exact h)
    · rw [if_neg hc]
      have hlt : (batch ++ [mkEntry (count + 1) u.url]).length < BatchSize := by
        have h1 : ¬ (batch ++ [mkEntry (count + 1) u.url]).length = BatchSize :=
          fun h => hc (Or.inl h)
        simp only [List.length_append, List.length_singleton] at h1 ⊢
        omega
      exact ih (count + 1) _ hlt

/-- The number of chunks is the ceiling of the number of entries over
`BatchSize`. -/
theorem chunksGo_length (urls : List URLRecord) :
    ∀ count batch, batch.length < BatchSize → (urls = [] → batch = []) →
    (chunksGo count batch urls).length =
      (batch.length + urls.length + (BatchSize - 1)) / BatchSize := by
  induction urls with
  | nil =>
    intro count batch _ hne
    simp [chunksGo, hne rfl, BatchSize]
  | cons u rest ih =>
    intro count batch hb _
    simp only [chunksGo, List.length_cons]
    by_cases hc : (batch ++ [mkEntry (count + 1) u.url]).length = BatchSize ∨ rest = []
    · rw [if_pos hc]
      rcases eq_or_ne rest [] with hrest | hrest
      · subst hrest
        have : batch.length < BatchSize := hb
        simp only [chunksGo, List.length_cons, List.length_nil, BatchSize] at this ⊢
        omega
      · have hfull : (batch ++ [mkEntry (count + 1) u.url]).length = BatchSize := by
          rcases hc with h | h
          · exact h
          · exact absurd h hrest
        rw [List.length_cons, ih (count + 1) [] (by simp [BatchSize])
          (fun h => absurd h hrest)]
        simp only [List.length_append, List.length_singleton] at hfull
        simp only [List.length_nil, BatchSize] at *
        omega
    · rw [if_neg hc]
      have hrest : rest ≠ [] := fun h => hc (Or.inr h)
      have hlt : (batch ++ [mkEntry (count + 1) u.url]).length < BatchSize := by
        have h1 : ¬ (batch ++ [mkEntry (count + 1) u.url]).length = BatchSize :=
          fun h => hc (Or.inl h)
        simp only [List.length_append, List.length_singleton] at h1 ⊢
        omega
      rw [ih (count + 1) _ hlt (fun h => absurd h hrest)]
      simp only [List.length_append, List.length_singleton, BatchSize]
      omega

/-! ### The tick in terms of chunks -/

/-- A full tick with a reachable store: fetch, chunk, submit, mark. -/
theorem processURLs_eq (db : List URLRecord) (outcome : Nat → Bool) (count : Nat) :
    processURLs false db outcome count =
      ((runChunks outcome 0 db (chunksGo count [] (fetchPending db))).1,
       count + (fetchPending db).length,
       (runChunks outcome 0 db (chunksGo count [] (fetchPending db))).2) := by
  by_cases h : fetchPending db = []
  · simp [processURLs, h, chunksGo, runChunks]
  · simp [processURLs, h, dispatchGo_eq]

/-! ### Theorems about the batch sender -/

/-- Complete case analysis of `sendBatch`: its behaviour is determined by
the outcomes of the first three attempts. -/
theorem sendBatch_eq (outcome : Nat → Bool) :
    sendBatch outcome =
      if outcome 0 then (true, [SendEvent.call 0])
      else if outcome 1 then
        (true, [SendEvent.call 0, SendEvent.sleep 2, SendEvent.call 1])
      else if outcome 2 then
        (true, [SendEvent.call 0, SendEvent.sleep 2, SendEvent.call 1,
                SendEvent.sleep 4, SendEvent.call 2])
      else
        (false, [SendEvent.call 0, SendEvent.sleep 2, SendEvent.call 1,
                 SendEvent.sleep 4, SendEvent.call 2, SendEvent.sleep 6]) := by
  cases h0 : outcome 0 <;> cases h1 : outcome 1 <;> cases h2 : outcome 2 <;>
    simp [sendBatch, sendBatchFrom, RetryAttempts, RetryBackoff, h0, h1, h2]

/-- C3 counterexample: when every attempt fails, the trace ends with
`sleep 6` — the sender does sleep after the last attempt, so the claim
"at most `RetryAttempts` calls and only sleeps between attempts, never
after the last" is false at the all-failures input. -/
theorem sendBatch_sleeps_after_last :
    ¬ (numCalls (sendBatch fun _ => false).2 ≤ RetryAttempts ∧
       sleepsOnlyBetweenAttempts (sendBatch fun _ => false).2) := by
  intro ⟨_, h⟩
  have h6 := h [SendEvent.call 0, SendEvent.sleep 2, SendEvent.call 1,
                SendEvent.sleep 4, SendEvent.call 2] 6 [] (by decide)
  obtain ⟨a, ha⟩ := h6
  exact absurd ha (List.not_mem_nil _)

/-- C3 amended: `sendBatch` issues at most `RetryAttempts` submission
calls, and it sleeps after every failed attempt — including after the
final one when the batch fails — so the number of sleeps equals the
number of failed calls (one fewer than the calls exactly when the batch
succeeds). -/
theorem sendBatch_retry_bound (outcome : Nat → Bool) :
    numCalls (sendBatch outcome).2 ≤ RetryAttempts ∧
    (sleepDurs (sendBatch outcome).2).length =
      (if (sendBatch outcome).1 then numCalls (sendBatch outcome).2 - 1
       else numCalls (sendBatch outcome).2) := by
  rw [sendBatch_eq]
  cases h0 : outcome 0 <;> cases h1 : outcome 1 <;> cases h2 : outcome 2 <;>
    simp [h0, h1, h2] <;> decide

/-- C4: if attempts `0..k-1` fail and attempt `k` succeeds
(`k < RetryAttempts`), `sendBatch` returns success immediately at attempt
`k`, having slept `RetryBackoff * (j+1)` after each failed attempt `j`
(attempt number `j+1` starting at 1) and never after the successful one. -/
theorem sendBatch_first_success (outcome : Nat → Bool) (k : Nat)
    (hk : k < RetryAttempts)
    (hfail : ∀ j, j < k → outcome j = false) (hsucc : outcome k = true) :
    sendBatch outcome =
      (true,
        (List.range k).flatMap
          (fun j => [SendEvent.call j, SendEvent.sleep (RetryBackoff * (j+1))]) ++
        [SendEvent.call k]) := by
  rw [sendBatch_eq]
  have hk3 : k < 3 := hk
  interval_cases k
  · simp [hsucc]
  · simp [hfail 0 (by norm_num), hsucc, List.range_succ, RetryBackoff]
  · simp [hfail 0 (by norm_num), hfail 1 (by norm_num), hsucc, List.range_succ,
      RetryBackoff]

/-- C4 witness: submission fails twice then succeeds on attempt 3:
exactly 3 calls, sleeps `RetryBackoff*1` then `RetryBackoff*2`, success. -/
theorem sendBatch_first_success_witness :
    (sendBatch (fun a => decide (2 ≤ a))).1 = true ∧
    numCalls (sendBatch (fun a => decide (2 ≤ a))).2 = 3 ∧
    sleepDurs (sendBatch (fun a => decide (2 ≤ a))).2 =
      [RetryBackoff * 1, RetryBackoff * 2] := by
  have h := sendBatch_first_success (fun a => decide (2 ≤ a)) 2
    (by decide) (by decide) (by decide)
  rw [h]
  exact ⟨rfl, by decide, by decide⟩

/-- C5 counterexample: attempt 1 fails at the queue and cancellation fires
during the first backoff sleep (so it is in effect from attempt index 1
onward); the claim says the sender abandons the remaining attempts, but
the code still issues submission calls 1 and 2 and returns failure only
after the full envelope. -/
theorem sendBatch_cancel_not_prompt :
    (sendBatchCancelled (fun a => decide (1 ≤ a)) 1).1 = false ∧
    ¬ (SendEvent.call 1 ∉ (sendBatchCancelled (fun a => decide (1 ≤ a)) 1).2 ∧
       SendEvent.call 2 ∉ (sendBatchCancelled (fun a => decide (1 ≤ a)) 1).2) := by
  decide

/-- C5 amended: backoff sleeps are not cancellable — if cancellation takes
effect from attempt `c` onward after the earlier attempts failed at the
queue, `sendBatch` still issues all `RetryAttempts` calls and completes
every backoff sleep (including one after the last attempt), returning
failure only after the full retry envelope. -/
theorem sendBatch_cancel_ignored (queueOk : Nat → Bool) (c : Nat)
    (hfail : ∀ j, j < c → queueOk j = false) :
    sendBatchCancelled queueOk c =
      (false, [SendEvent.call 0, SendEvent.sleep 2, SendEvent.call 1,
               SendEvent.sleep 4, SendEvent.call 2, SendEvent.sleep 6]) := by
  have hall : ∀ a, effectiveOutcome queueOk c a = false := by
    intro a
    by_cases h : c ≤ a
    · simp [effectiveOutcome, h]
    · simp [effectiveOutcome, hfail a (by omega)]
  rw [sendBatchCancelled, sendBatch_eq]
  simp [hall]

/-- C5 amended witness: cancellation from attempt 1 (fired during the
first backoff sleep, attempt 0 having failed): the full three-call,
three-sleep failure trace is still produced. -/
theorem sendBatch_cancel_ignored_witness :
    sendBatchCancelled (fun a => decide (1 ≤ a)) 1 =
      (false, [SendEvent.call 0, SendEvent.sleep 2, SendEvent.call 1,
               SendEvent.sleep 4, SendEvent.call 2, SendEvent.sleep 6]) :=
  sendBatch_cancel_ignored (fun a => decide (1 ≤ a)) 1 (by decide)

/-! ### Marking as a store transformation -/

/-- Applying a sequence of mark-delivered updates sets `processed` on
exactly the rows whose `url` occurs among the marked bodies. -/
theorem foldl_markDelivered (bodies : List String) :
    ∀ db : List URLRecord,
    bodies.foldl markDelivered db =
      db.map fun r => if r.url ∈ bodies then { r with processed := true } else r := by
  induction bodies with
  | nil => intro db; simp
  | cons b bs ih =>
    intro db
    rw [List.foldl_cons, ih, markDelivered, List.map_map, List.map_eq_map_iff]
    intro r _
    by_cases h : r.url = b
    · by_cases h2 : r.url ∈ bs <;> simp [Function.comp, h, h2]
    · by_cases h2 : r.url ∈ bs <;> simp [Function.comp, h, h2]

/-! ### Theorems about the dispatch tick -/

/-- C2: for a non-empty fetched page, the tick partitions its entries into
consecutive chunks preserving fetch order (their concatenation is exactly
the page's entry sequence, so every fetched record appears in exactly one
chunk), each chunk of size at most `BatchSize`, all but the last of size
exactly `BatchSize`, and the number of chunks — hence of batch-sender
invocations — is `⌈N / BatchSize⌉`. -/
theorem processURLs_batch_partition (db : List URLRecord) (outcome : Nat → Bool)
    (count : Nat) (_hne : fetchPending db ≠ []) :
    (sendChunks (processURLs false db outcome count).2.2).flatten
        = mkEntries count (fetchPending db) ∧
    (∀ ch ∈ sendChunks (processURLs false db outcome count).2.2,
        ch.length ≤ BatchSize) ∧
    (∀ ch ∈ (sendChunks (processURLs false db outcome count).2.2).dropLast,
        ch.length = BatchSize) ∧
    (sendChunks (processURLs false db outcome count).2.2).length
        = ((fetchPending db).length + (BatchSize - 1)) / BatchSize := by
  simp only [processURLs_eq]
  rw [runChunks_sendChunks]
  refine ⟨?_, (chunksGo_sizes _ count [] (by simp [BatchSize])).1,
    (chunksGo_sizes _ count [] (by simp [BatchSize])).2, ?_⟩
  · simpa using chunksGo_flatten (fetchPending db) count [] (fun _ => rfl)
  · simpa using chunksGo_length (fetchPending db) count []
      (by simp [BatchSize]) (fun _ => rfl)

/-- C2 witness: 25 pending records, all submissions succeeding: 3 chunks
of sizes 10, 10, 5. -/
theorem processURLs_batch_partition_witness :
    fetchPending db25 ≠ [] ∧
    (sendChunks (processURLs false db25 (fun _ => true) 0).2.2).map List.length
        = [10, 10, 5] ∧
    ((sendChunks (processURLs false db25 (fun _ => true) 0).2.2).flatten
        = mkEntries 0 (fetchPending db25) ∧
     (∀ ch ∈ sendChunks (processURLs false db25 (fun _ => true) 0).2.2,
        ch.length ≤ BatchSize) ∧
     (∀ ch ∈ (sendChunks (processURLs false db25 (fun _ => true) 0).2.2).dropLast,
        ch.length = BatchSize) ∧
     (sendChunks (processURLs false db25 (fun _ => true) 0).2.2).length
        = ((fetchPending db25).length + (BatchSize - 1)) / BatchSize) :=
  ⟨by decide, by decide, processURLs_batch_partition db25 (fun _ => true) 0 (by decide)⟩

/-- C1 counterexample: in `db11`, record 11 shares payload `"u1"` with
record 1; chunk 0 (records 1–10) succeeds and chunk 1 (record 11 alone)
fails, yet record 11 is marked delivered — the set of records marked is
strictly larger than the union of the successfully submitted chunks, and
a record whose own chunk was never accepted is marked. -/
theorem processURLs_exact_union_ce :
    (okChunks (processURLs false db11 (fun i => decide (i = 0)) 0).2.2).flatten
        = mkEntries 0 (db11.take 10) ∧
    mkEntry 11 "u1" ∉
      (okChunks (processURLs false db11 (fun i => decide (i = 0)) 0).2.2).flatten ∧
    ({ id := 11, url := "u1", processed := true } : URLRecord)
        ∈ (processURLs false db11 (fun i => decide (i = 0)) 0).1 := by
  decide

/-- C1 amended: the tick issues mark-delivered updates exactly for the
entries of the chunks whose submission was confirmed successful, each
update strictly after its chunk's acceptance (`marksOk`); the set of
records marked delivered is precisely the records whose `url` equals the
body of some successfully submitted entry — which can exceed the union of
the successful chunks when distinct records share a payload. -/
theorem processURLs_no_premature_marking (db : List URLRecord) (outcome : Nat → Bool)
    (count : Nat) :
    markedBodies (processURLs false db outcome count).2.2
        = (okChunks (processURLs false db outcome count).2.2).flatMap
            (fun ch => ch.map fun e => e.messageBody) ∧
    (processURLs false db outcome count).1
        = db.map (fun r =>
            if r.url ∈ markedBodies (processURLs false db outcome count).2.2 then
              { r with processed := true }
            else r) ∧
    marksOk (processURLs false db outcome count).2.2 [] = true := by
  simp only [processURLs_eq]
  exact ⟨runChunks_markedBodies _ _ _ _,
    by rw [runChunks_fst, foldl_markDelivered],
    runChunks_marksOk _ _ _ _ _⟩

/-- C7: when the store fetch fails, the tick performs no submissions and
no mark-delivered updates, leaves every record's delivery state unchanged,
and returns normally (the error never escapes `processURLs`). -/
theorem processURLs_store_failure (db : List URLRecord) (outcome : Nat → Bool)
    (count : Nat) :
    processURLs true db outcome count = (db, count, []) ∧
    sendChunks (processURLs true db outcome count).2.2 = [] ∧
    markedBodies (processURLs true db outcome count).2.2 = [] := by
  refine ⟨by simp [processURLs], ?_, ?_⟩ <;> simp [processURLs, sendChunks, markedBodies]

/-- C9: a chunk's failure affects only that chunk — the chunks submitted
(and their order) are the same whatever the verdicts, each chunk is
submitted with its own verdict, and mark-delivered updates happen exactly
for the successful chunks' entries. -/
theorem processURLs_chunk_isolation (db : List URLRecord) (outcome outcome' : Nat → Bool)
    (count : Nat) :
    sendChunks (processURLs false db outcome count).2.2
        = sendChunks (processURLs false db outcome' count).2.2 ∧
    sendVerdicts (processURLs false db outcome count).2.2
        = pairWithOutcome outcome 0 (sendChunks (processURLs false db outcome count).2.2) ∧
    markedBodies (processURLs false db outcome count).2.2
        = (okChunks (processURLs false db outcome count).2.2).flatMap
            (fun ch => ch.map fun e => e.messageBody) := by
  simp only [processURLs_eq]
  refine ⟨?_, ?_, runChunks_markedBodies _ _ _ _⟩
  · rw [runChunks_sendChunks, runChunks_sendChunks]
  · rw [runChunks_sendVerdicts, runChunks_sendChunks]

/-- C10: mark-delivered is keyed on payload equality, not record id: every
stored record whose `url` equals the body of an entry of a successfully
submitted chunk is marked delivered, even if that record itself was never
part of the successful chunk. -/
theorem processURLs_marks_by_payload (db : List URLRecord) (outcome : Nat → Bool)
    (count : Nat) (r : URLRecord) (hr : r ∈ db)
    (h : ∃ ch ∈ okChunks (processURLs false db outcome count).2.2, ∃ e ∈ ch,
          e.messageBody = r.url) :
    { r with processed := true } ∈ (processURLs false db outcome count).1 := by
  simp only [processURLs_eq] at h ⊢
  have hmb : r.url ∈
      markedBodies (runChunks outcome 0 db (chunksGo count [] (fetchPending db))).2 := by
    rw [runChunks_markedBodies, List.mem_flatMap]
    obtain ⟨ch, hch, e, he, heq⟩ := h
    exact ⟨ch, hch, heq ▸ List.mem_map_of_mem _ he⟩
  rw [runChunks_fst, foldl_markDelivered]
  exact List.mem_map.2 ⟨r, hr, by rw [if_pos hmb]⟩

/-- C10 witness: in `db11`, record 11's payload `"u1"` equals the body of
chunk 0's first entry (record 1's), chunk 0 succeeded, and record 11 —
which was never part of chunk 0 — is marked delivered. -/
theorem processURLs_marks_by_payload_witness :
    ({ id := 11, url := "u1", processed := false } : URLRecord) ∈ db11 ∧
    (∃ ch ∈ okChunks (processURLs false db11 (fun i => decide (i = 0)) 0).2.2,
      ∃ e ∈ ch, e.messageBody =
        ({ id := 11, url := "u1", processed := false } : URLRecord).url) ∧
    ({ id := 11, url := "u1", processed := true } : URLRecord)
        ∈ (processURLs false db11 (fun i => decide (i = 0)) 0).1 :=
  ⟨by decide, by decide,
    processURLs_marks_by_payload db11 (fun i => decide (i = 0)) 0
      { id := 11, url := "u1", processed := false } (by decide) (by decide)⟩

/-! ### Theorems about the data model -/

/-- C8 counterexample: the declared entity has no `delivered` attribute —
the `processed` column read and written by the dispatch loop is absent
from the gorm model's declared columns — and no lookup index is declared
on it. -/
theorem urls_schema_ce :
    fetchWhereColumn ∉ URLsColumns ∧ URLsIndexes = [] := by
  decide

/-- C8 amended: the single entity declares exactly the attributes `id`
and `url` (the payload); the dispatch loop's fetch filter and its
mark-delivered update both reference a raw `processed` column that is not
among the declared attributes, and the model declares no index. -/
theorem urls_schema :
    URLsColumns = ["id", "url"] ∧
    fetchWhereColumn = "processed" ∧
    markUpdateColumn = "processed" ∧
    fetchWhereColumn ∉ URLsColumns ∧
    URLsIndexes = [] := by
  decide

/-! ### Theorems about shutdown -/

theorem loopSleepTotal_append (a b : List LoopEv) :
    loopSleepTotal (a ++ b) = loopSleepTotal a + loopSleepTotal b := by
  simp [loopSleepTotal, List.filterMap_append]

theorem loopCallCount_append (a b : List LoopEv) :
    loopCallCount (a ++ b) = loopCallCount a + loopCallCount b := by
  simp [loopCallCount, List.filter_append]

theorem loopSleepTotal_replicate (k : Nat) (l : List LoopEv) :
    loopSleepTotal (List.replicate k l).flatten = k * loopSleepTotal l := by
  induction k with
  | zero => simp [loopSleepTotal]
  | succ k ih =>
    rw [List.replicate_succ, List.flatten_cons, loopSleepTotal_append, ih]
    ring

theorem loopCallCount_replicate (k : Nat) (l : List LoopEv) :
    loopCallCount (List.replicate k l).flatten = k * loopCallCount l := by
  induction k with
  | zero => simp [loopCallCount]
  | succ k ih =>
    rw [List.replicate_succ, List.flatten_cons, loopCallCount_append, ih]
    ring

/-- C6 counterexample: cancellation signalled at the start of the polling
sleep still sleeps the full `PollingInterval` (it does not wake
immediately), and cancellation signalled just before a 10-chunk tick is
followed by 31 further store/queue calls and 130 seconds of sleeping —
far beyond one polling interval plus one backoff cycle. -/
theorem loop_shutdown_ce :
    loopSleepTotal (afterCancel (LoopPoint.inPollSleep PollingInterval))
        = PollingInterval ∧
    PollingInterval ≠ 0 ∧
    loopCallCount (afterCancel (LoopPoint.beforeTick 10)) = 31 ∧
    ¬ (loopSleepTotal (afterCancel (LoopPoint.beforeTick 10))
        ≤ PollingInterval + RetryBackoff * (1 + 2 + 3)) := by
  decide

/-- C6 amended: neither the polling sleep nor the backoff sleeps observe
cancellation.  Signalled at the `select` or while idle in the polling
sleep, the loop makes no further store/queue calls and exits after at most
the remaining sleep (≤ `PollingInterval`).  Signalled before or during a
tick with `k` chunks remaining (`k ≤ DatabaseLimit / BatchSize`), the loop
still performs the fetch (in the before-tick case) and `RetryAttempts`
queue calls per remaining chunk, sleeps the full backoff envelope
(`RetryBackoff * 6` seconds) per chunk plus the full polling interval, and
only then exits — within
`PollingInterval + RetryBackoff * 6 * (DatabaseLimit / BatchSize)` seconds
of sleeping. -/
theorem loop_shutdown (k r : Nat) (hk : k ≤ DatabaseLimit / BatchSize)
    (hr : r ≤ PollingInterval) :
    loopCallCount (afterCancel LoopPoint.atSelect) = 0 ∧
    loopSleepTotal (afterCancel LoopPoint.atSelect) = 0 ∧
    loopCallCount (afterCancel (LoopPoint.inPollSleep r)) = 0 ∧
    loopSleepTotal (afterCancel (LoopPoint.inPollSleep r)) = r ∧
    loopSleepTotal (afterCancel (LoopPoint.inPollSleep r)) ≤ PollingInterval ∧
    loopCallCount (afterCancel (LoopPoint.midTick k)) = RetryAttempts * k ∧
    loopSleepTotal (afterCancel (LoopPoint.midTick k))
        = PollingInterval + RetryBackoff * (1 + 2 + 3) * k ∧
    loopCallCount (afterCancel (LoopPoint.beforeTick k)) = 1 + RetryAttempts * k ∧
    loopSleepTotal (afterCancel (LoopPoint.beforeTick k))
        ≤ PollingInterval + RetryBackoff * (1 + 2 + 3) * (DatabaseLimit / BatchSize) := by
  have hsleep : loopSleepTotal cancelledChunkEvs = 12 := by decide
  have hcall : loopCallCount cancelledChunkEvs = 3 := by decide
  have htails : loopSleepTotal [LoopEv.sleepEv PollingInterval, LoopEv.exitEv] = 10 := by
    decide
  have htailc : loopCallCount [LoopEv.sleepEv PollingInterval, LoopEv.exitEv] = 0 := by
    decide
  have hmid : ∀ m : Nat,
      loopSleepTotal (afterCancel (LoopPoint.midTick m)) = 10 + 12 * m := by
    intro m
    have h1 : afterCancel (LoopPoint.midTick m)
        = (List.replicate m cancelledChunkEvs).flatten ++
          [LoopEv.sleepEv PollingInterval, LoopEv.exitEv] := rfl
    rw [h1, loopSleepTotal_append, loopSleepTotal_replicate, hsleep, htails]
    omega
  have hmidc : ∀ m : Nat,
      loopCallCount (afterCancel (LoopPoint.midTick m)) = 3 * m := by
    intro m
    have h1 : afterCancel (LoopPoint.midTick m)
        = (List.replicate m cancelledChunkEvs).flatten ++
          [LoopEv.sleepEv PollingInterval, LoopEv.exitEv] := rfl
    rw [h1, loopCallCount_append, loopCallCount_replicate, hcall, htailc]
    omega
  have hpoll : loopSleepTotal (afterCancel (LoopPoint.inPollSleep r)) = r := rfl
  have hk10 : k ≤ 10 := by
    simpa [DatabaseLimit, BatchSize] using hk
  refine ⟨rfl, rfl, rfl, hpoll, ?_, ?_, ?_, ?_, ?_⟩
  · rw [hpoll]
    exact hr
  · rw [hmidc k]
    rfl
  · rw [hmid k]
    rfl
  · have h1 : afterCancel (LoopPoint.beforeTick k)
        = LoopEv.storeCall :: afterCancel (LoopPoint.midTick k) := rfl
    have h2 : loopCallCount (LoopEv.storeCall :: afterCancel (LoopPoint.midTick k))
        = loopCallCount (afterCancel (LoopPoint.midTick k)) + 1 := rfl
    rw [h1, h2, hmidc k]
    show 3 * k + 1 = 1 + 3 * k
    omega
  · have h1 : loopSleepTotal (afterCancel (LoopPoint.beforeTick k))
        = loopSleepTotal (afterCancel (LoopPoint.midTick k)) := rfl
    rw [h1, hmid k]
    show 10 + 12 * k ≤ 130
    omega

/-- C6 amended witness: cancellation with 10 chunks remaining and the full
polling sleep pending. -/
theorem loop_shutdown_witness :
    10 ≤ DatabaseLimit / BatchSize ∧ 10 ≤ PollingInterval ∧
    (loopCallCount (afterCancel LoopPoint.atSelect) = 0 ∧
     loopSleepTotal (afterCancel LoopPoint.atSelect) = 0 ∧
     loopCallCount (afterCancel (LoopPoint.inPollSleep 10)) = 0 ∧
     loopSleepTotal (afterCancel (LoopPoint.inPollSleep 10)) = 10 ∧
     loopSleepTotal (afterCancel (LoopPoint.inPollSleep 10)) ≤ PollingInterval ∧
     loopCallCount (afterCancel (LoopPoint.midTick 10)) = RetryAttempts * 10 ∧
     loopSleepTotal (afterCancel (LoopPoint.midTick 10))
        = PollingInterval + RetryBackoff * (1 + 2 + 3) * 10 ∧
     loopCallCount (afterCancel (LoopPoint.beforeTick 10)) = 1 + RetryAttempts * 10 ∧
     loopSleepTotal (afterCancel (LoopPoint.beforeTick 10))
        ≤ PollingInterval + RetryBackoff * (1 + 2 + 3) * (DatabaseLimit / BatchSize)) :=
  ⟨by decide, by decide, loop_shutdown 10 10 (by decide) (by decide)⟩

end SQSProducer
